import Mathlib

/-!
Verification of the `luxnews` press-review pipeline.

Python text is modelled as `List Char`; aware timestamps are modelled as
integer seconds since the epoch (aware-datetime comparison and
`timedelta(days=k)` arithmetic are exact in this model, one day being
86400 seconds).  External libraries (`unicodedata`, `str.lower`,
`dateutil`, `requests`, BeautifulSoup, Selenium) are modelled either by
explicit finite tables covering the character set the program works with
or by environment parameters, while every function of the repository
itself is translated clause by clause from `src/luxnews`.
-/

namespace LuxNews

/-- Python strings, modelled as lists of unicode scalar values. -/
abbrev Str := List Char

/-! ## Character-level model of the external text primitives -/

/-- Model of Python's `\s` character class (regex `_WHITESPACE_RE`) on the
modelled character set: ASCII whitespace. -/
def isSpaceCh (c : Char) : Bool :=
  c == ' ' || c == '\t' || c == '\n' || c == '\r' || c.toNat == 11 || c.toNat == 12

/-- Model of `unicodedata.combining(ch) != 0` on the modelled character set:
the combining diacritical marks block U+0300–U+036F. -/
def combiningCh (c : Char) : Bool :=
  768 ≤ c.toNat && c.toNat ≤ 879

/-- The NFKD decomposition table of `unicodedata`, restricted to the accented
Latin letters the program's keywords and article text use. -/
def decompTable : List (Char × List Char) :=
  [('À', ['A', '̀']), ('Â', ['A', '̂']), ('Ä', ['A', '̈']), ('Ç', ['C', '̧']),
   ('È', ['E', '̀']), ('É', ['E', '́']), ('Ê', ['E', '̂']), ('Ë', ['E', '̈']),
   ('Î', ['I', '̂']), ('Ï', ['I', '̈']), ('Ô', ['O', '̂']), ('Ö', ['O', '̈']),
   ('Ù', ['U', '̀']), ('Û', ['U', '̂']), ('Ü', ['U', '̈']),
   ('à', ['a', '̀']), ('â', ['a', '̂']), ('ä', ['a', '̈']), ('ç', ['c', '̧']),
   ('è', ['e', '̀']), ('é', ['e', '́']), ('ê', ['e', '̂']), ('ë', ['e', '̈']),
   ('î', ['i', '̂']), ('ï', ['i', '̈']), ('ô', ['o', '̂']), ('ö', ['o', '̈']),
   ('ù', ['u', '̀']), ('û', ['u', '̂']), ('ü', ['u', '̈'])]

/-- Model of `unicodedata.normalize("NFKD", ·)` per character via the finite
table; every character outside the table decomposes to itself. -/
def decompChar (c : Char) : List Char :=
  match decompTable.find? fun e => e.1 == c with
  | some e => e.2
  | none => [c]

/-- Model of Python's `str.lower` per character on the modelled set: the
accented capitals are decomposed away before lowercasing, so only the ASCII
range acts. -/
def toLowerCh (c : Char) : Char :=
  if h : 65 ≤ c.toNat ∧ c.toNat ≤ 90 then
    Char.ofNatAux (c.toNat + 32) (Or.inl (by omega))
  else c

/-- Model of `_WHITESPACE_RE.sub(" ", ·)`: each maximal run of whitespace
characters is replaced by a single space; `prevSpace` records whether the
scan is inside a whitespace run. -/
def collapseWsAux (prevSpace : Bool) : List Char → List Char
  | [] => []
  | c :: rest =>
    if isSpaceCh c then
      if prevSpace then collapseWsAux true rest
      else ' ' :: collapseWsAux true rest
    else c :: collapseWsAux false rest

/-- Model of `_WHITESPACE_RE.sub(" ", ·)`: collapse every whitespace run to one space. -/
def collapseWs (l : List Char) : List Char :=
  collapseWsAux false l

/-- Model of Python `str.strip()`: drop whitespace from both ends. -/
def stripWs (l : List Char) : List Char :=
  ((l.dropWhile isSpaceCh).reverse.dropWhile isSpaceCh).reverse

/-- Model of `utils.normalize_text`: NFKD-decompose, drop combining marks, lowercase,
collapse whitespace runs to single spaces, strip the ends
(`src/luxnews/utils.py:16-21`). -/
def normalize_text (text : Str) : Str :=
  stripWs (collapseWs (((text.flatMap decompChar).filter
    (fun c => !combiningCh c)).map toLowerCh))

/-! ## Date utilities -/

/-- Model of `utils.is_within_last_days` with an explicit reference instant
(`src/luxnews/utils.py:34-38`): the cutoff is `now - timedelta(days=last_days)`
and the test is `dt >= cutoff`. -/
def is_within_last_days (dt : Int) (last_days : Int) (now : Int) : Bool :=
  decide (now - last_days * 86400 ≤ dt)

/-- Model of `models.SearchHit` (`src/luxnews/models.py:8-14`). -/
structure SearchHit where
  url : Str
  title : Option Str := none
  published_at : Option Int := none
  snippet : Option Str := none
  media_id : Option Str := none
deriving Repr, DecidableEq

/-- Model of `BaseMediaScraper.filter_hits_by_date` (`src/luxnews/media/base.py:81-90`),
with the instant `datetime.now()` as an explicit parameter: a hit without a
timestamp is kept, otherwise the recency test decides. -/
def filter_hits_by_date (now : Int) (hits : List SearchHit) (last_days : Int) :
    List SearchHit :=
  hits.filter fun hit =>
    match hit.published_at with
    | none => true
    | some d => is_within_last_days d last_days now

/-! ## safe_filename -/

/-- The character class kept by `re.sub(r"[^a-z0-9\-_. ]", "", ·)` in
`safe_filename`. -/
def keptCh (c : Char) : Bool :=
  (97 ≤ c.toNat && c.toNat ≤ 122) || (48 ≤ c.toNat && c.toNat ≤ 57) ||
    c == '-' || c == '_' || c == '.' || c == ' '

/-- Python `str.strip("-")`: drop hyphens from both ends. -/
def stripHyphens (l : List Char) : List Char :=
  ((l.dropWhile (fun c => c == '-')).reverse.dropWhile (fun c => c == '-')).reverse

/-- Model of `utils.safe_filename` (`src/luxnews/utils.py:41-47`): normalize, delete
characters outside `[a-z0-9\-_. ]`, turn spaces into hyphens, strip edge
hyphens, fall back to `"item"`, truncate to `max_len`. -/
def safe_filename (text : Str) (max_len : Nat := 120) : Str :=
  let normalized := normalize_text text
  let normalized := normalized.filter keptCh
  let normalized := normalized.map (fun c => if c == ' ' then '-' else c)
  let normalized := stripHyphens normalized
  let normalized := if normalized = [] then "item".data else normalized
  normalized.take max_len

/-! ## Keyword matching -/

/-- Python's substring operator `needle in hay` on strings. -/
def inStr (needle hay : Str) : Bool :=
  decide (needle <:+: hay)

/-- The keyword-match computation of `_process_article`
(`src/luxnews/core.py:317-321`): keep exactly the configured keywords whose
normalization occurs as a substring of the normalized visible text. -/
def matched_keywords_of (keywords : List Str) (visible_text : Str) : List Str :=
  let normalized_text := normalize_text visible_text
  keywords.filter fun kw => inStr (normalize_text kw) normalized_text

/-! ## unique_preserve_order -/

/-- Loop of `utils.unique_preserve_order` with the `seen` set explicit
(`src/luxnews/utils.py:63-71`). -/
def uniquePreserveOrderAux {α : Type} [DecidableEq α] (seen : Finset α) :
    List α → List α
  | [] => []
  | x :: rest =>
    if x ∈ seen then uniquePreserveOrderAux seen rest
    else x :: uniquePreserveOrderAux (insert x seen) rest

/-- Model of `utils.unique_preserve_order` (`src/luxnews/utils.py:63-71`). -/
def unique_preserve_order {α : Type} [DecidableEq α] (items : List α) : List α :=
  uniquePreserveOrderAux ∅ items

/-! ## Cross-keyword merge (`_collect_search_hits`) -/

/-- Python truthiness of an optional string: `None` and `""` are falsy. -/
def optStrTruthy : Option Str → Bool
  | none => false
  | some s => !s.isEmpty

/-- Python truthiness of an optional datetime: only `None` is falsy. -/
def optDtTruthy : Option Int → Bool
  | none => false
  | some _ => true

/-- The per-URL merged payload built by `_collect_search_hits`
(the dict stored in `hits_by_url`, `src/luxnews/core.py:192-208`). -/
structure Payload where
  keywords : Finset Str
  snippets : List Str
  title : Option Str
  published_at : Option Int
deriving DecidableEq

/-- The payload `setdefault` inserts on first sight of a URL
(`src/luxnews/core.py:193-201`). -/
def initPayload (hit : SearchHit) : Payload :=
  { keywords := ∅, snippets := [], title := hit.title,
    published_at := hit.published_at }

/-- The mutations applied to a URL's payload for one hit of one keyword round
(`src/luxnews/core.py:202-208`). -/
def updatePayload (keyword : Str) (hit : SearchHit) (p : Payload) : Payload :=
  let p1 := { p with keywords := insert keyword p.keywords }
  let p2 :=
    if optStrTruthy hit.snippet then
      { p1 with snippets := p1.snippets ++ [hit.snippet.getD []] }
    else p1
  let p3 :=
    if optStrTruthy hit.title && !optStrTruthy p2.title then
      { p2 with title := hit.title }
    else p2
  if optDtTruthy hit.published_at && !optDtTruthy p3.published_at then
    { p3 with published_at := hit.published_at }
  else p3

/-- Model of `dict.setdefault(url, dflt)` followed by an in-place update of the entry,
on an insertion-ordered association list (the model of a Python dict). -/
def setdefaultUpdate (m : List (Str × Payload)) (url : Str) (dflt : Payload)
    (f : Payload → Payload) : List (Str × Payload) :=
  match m with
  | [] => [(url, f dflt)]
  | (u, p) :: rest =>
    if u = url then (u, f p) :: rest
    else (u, p) :: setdefaultUpdate rest url dflt f

/-- Processing of one hit inside a keyword round (`src/luxnews/core.py:192-208`). -/
def addHit (keyword : Str) (m : List (Str × Payload)) (hit : SearchHit) :
    List (Str × Payload) :=
  setdefaultUpdate m hit.url (initPayload hit) (updatePayload keyword hit)

/-- One keyword round of `_collect_search_hits`: fold the keyword's hits into
the accumulated per-URL map. -/
def collectRound (m : List (Str × Payload)) (keyword : Str)
    (hits : List SearchHit) : List (Str × Payload) :=
  hits.foldl (addHit keyword) m

/-- Model of `LuxNewsRunner._collect_search_hits` (`src/luxnews/core.py:175-212`) with
the per-keyword search (Selenium or requests path) as an environment
function: merge all keywords' hits by URL, then deduplicate each entry's
snippet list preserving order. -/
def collect_search_hits (search : Str → List SearchHit) (keywords : List Str) :
    List (Str × Payload) :=
  let m := keywords.foldl (fun m kw => collectRound m kw (search kw)) []
  m.map fun e => (e.1, { e.2 with snippets := unique_preserve_order e.2.snippets })

/-! ## Article processing (`_process_article`) -/

/-- Model of `models.ArticleRecord` (`src/luxnews/models.py:17-31`); `published_at`
(an ISO-8601 UTC string in the source) is modelled by the UTC instant it
denotes. -/
structure ArticleRecord where
  run_id : Str
  run_timestamp : Str
  media : Str
  url : Str
  title : Option Str
  published_at : Option Int
  date_unknown : Bool
  matched_keywords : List Str
  snippets : List Str
  per_article_pdf_path : Option Str
  status : Str
  errors : List Str
deriving DecidableEq, Repr

/-- What the attempt to drive the browser through one article yields: either
the page data the `try` block goes on to use, or an exception escaping to the
`except` handler.  For a failure, `title`, `published_at`, `date_unknown` and
`snippets` are the values the local variables hold when the exception
escapes, `exc_message` is `str(exc)` and `artifact_messages` is what
`_format_error_artifacts` returns. -/
inductive ArticleOutcome where
  | success (detected_title : Option Str) (extracted_date : Option Int)
      (search_visible_text : Str)
  | failure (title : Option Str) (published_at : Option Int)
      (date_unknown : Bool) (snippets : List Str) (exc_message : Str)
      (artifact_messages : List Str)
deriving DecidableEq

/-- Model of `LuxNewsRunner._process_article` (`src/luxnews/core.py:268-381`), with the
browser/extraction work abstracted into the `ArticleOutcome` it produced. -/
def process_article (media_id url : Str) (keywords : List Str)
    (snippets0 : List Str) (search_title : Option Str)
    (search_date : Option Int) (pdf_dir run_id run_timestamp : Str)
    (outcome : ArticleOutcome) : ArticleRecord :=
  match outcome with
  | .failure title published_at date_unknown snippets exc_message artifacts =>
    { run_id := run_id, run_timestamp := run_timestamp, media := media_id,
      url := url, title := title, published_at := published_at,
      date_unknown := date_unknown, matched_keywords := [],
      snippets := snippets, per_article_pdf_path := none,
      status := "failed".data, errors := exc_message :: artifacts }
  | .success detected_title extracted_date visible_text =>
    let title := if optStrTruthy detected_title then detected_title else search_title
    let pub : Option Int × Bool :=
      match extracted_date with
      | some d => (some d, false)
      | none =>
        match search_date with
        | some d => (some d, false)
        | none => (none, true)
    let published_at := pub.1
    let date_unknown := pub.2
    let matched := matched_keywords_of keywords visible_text
    let snippets :=
      if snippets0 = [] ∧ visible_text ≠ [] then
        let snippet_text := (stripWs (collapseWs visible_text)).take 200
        if snippet_text ≠ [] then [snippet_text] else snippets0
      else snippets0
    if matched = [] then
      { run_id := run_id, run_timestamp := run_timestamp, media := media_id,
        url := url, title := title, published_at := published_at,
        date_unknown := date_unknown, matched_keywords := [],
        snippets := snippets, per_article_pdf_path := none,
        status := "skipped".data,
        errors := ["No keyword match found in visible text.".data] }
    else
      let safe_title := safe_filename (match title with
        | some t => if !t.isEmpty then t else url
        | none => url)
      let pdf_path := pdf_dir ++ ['/'] ++ media_id ++ ['_'] ++ safe_title ++ ".pdf".data
      { run_id := run_id, run_timestamp := run_timestamp, media := media_id,
        url := url, title := title, published_at := published_at,
        date_unknown := date_unknown, matched_keywords := matched,
        snippets := snippets, per_article_pdf_path := some pdf_path,
        status := "ok".data, errors := [] }

/-! ## Search pagination loop (`BaseMediaScraper.search`) -/

/-- Python `str.replace(pat, repl)` scanning left to right, used to model
`str.format` on the repository's URL templates (whose only fields are
`{query}` and `{page}`). -/
def replaceSub (pat repl : Str) (s : Str) : Str :=
  match s with
  | [] => []
  | c :: rest =>
    if pat.isPrefixOf (c :: rest) ∧ pat ≠ [] then
      repl ++ replaceSub pat repl ((c :: rest).drop pat.length)
    else c :: replaceSub pat repl rest
termination_by s.length
decreasing_by
  · rename_i hp
    have : 0 < pat.length := List.length_pos.mpr hp.2
    simp only [List.length_drop, List.length_cons]
    omega
  · simp

/-- The static per-media configuration the search loop reads
(`MediaDefinition` in `src/luxnews/media/registry.py`); parsing-related
fields are not needed by the loop model. -/
structure MediaDefinition where
  media_id : Str
  search_url : Str
  domain : Str
  exclude_url_substrings : List Str
deriving DecidableEq

/-- The configuration fields `BaseMediaScraper.search` reads from `RunConfig`. -/
structure SearchConfig where
  max_pages : Nat
  max_results : Nat
deriving DecidableEq

/-- The external collaborators of the search loop: URL quoting (`urllib`),
page fetching (`requests`/Selenium), result parsing and next-page detection
(BeautifulSoup over the fetched markup), and the current instant. -/
structure ScraperEnv where
  quote_plus : Str → Str
  fetch : Str → Str
  parse : Str → Str → List SearchHit
  detect_next : Str → Str → Option Str
  now : Int

/-- Application of `.format` for one search URL. -/
def formatTemplate (template query : Str) (page : Option Nat) : Str :=
  let s := replaceSub "{query}".data query template
  match page with
  | none => s
  | some p => replaceSub "{page}".data (Nat.repr p).data s

/-- Model of `BaseMediaScraper.build_search_urls` (`src/luxnews/media/base.py:24-31`):
one URL per page number `1..max_pages` when the template has a `{page}`
placeholder, a single URL otherwise. -/
def build_search_urls (defn : MediaDefinition) (max_pages : Nat)
    (quote_plus : Str → Str) (keyword : Str) : List Str :=
  let query := quote_plus keyword
  if inStr "{page}".data defn.search_url then
    (List.range' 1 max_pages).map fun page =>
      formatTemplate defn.search_url query (some page)
  else [formatTemplate defn.search_url query none]

/-- The `for url in urls` loop of `BaseMediaScraper.search`
(`src/luxnews/media/base.py:109-133`), with the queue of not-yet-visited URLs
explicit (Python iterates a list that the body may append to).  The second
component of the result records the URLs actually fetched, in order. -/
def searchLoop (defn : MediaDefinition) (cfg : SearchConfig) (env : ScraperEnv)
    (last_days : Int) (queue : List Str) (pages_seen : Finset Str)
    (seen_urls : Finset Str) (hits : List SearchHit) :
    List SearchHit × List Str :=
  match queue with
  | [] => (hits, [])
  | url :: rest =>
    if url ∈ pages_seen then
      searchLoop defn cfg env last_days rest pages_seen seen_urls hits
    else
      let pages_seen' := insert url pages_seen
      let html := env.fetch url
      let page_hits := env.parse html url
      let page_hits := filter_hits_by_date env.now page_hits last_days
      let new_hits := page_hits.filter fun h => decide (h.url ∉ seen_urls)
      let seen_urls' := new_hits.foldl (fun s h => insert h.url s) seen_urls
      let hits' := hits ++ new_hits
      if new_hits = [] then (hits', [url])
      else if cfg.max_results ≤ hits'.length then (hits', [url])
      else if !inStr "{page}".data defn.search_url then
        if cfg.max_pages ≤ pages_seen'.card then (hits', [url])
        else
          match env.detect_next html url with
          | none => (hits', [url])
          | some next_url =>
            if next_url ∈ pages_seen' then (hits', [url])
            else
              let r := searchLoop defn cfg env last_days (rest ++ [next_url])
                pages_seen' seen_urls' hits'
              (r.1, url :: r.2)
      else
        let r := searchLoop defn cfg env last_days rest pages_seen' seen_urls' hits'
        (r.1, url :: r.2)
termination_by queue.length + (cfg.max_pages - pages_seen.card)
decreasing_by
  · simp only [List.length_cons]
    have := Nat.sub_le cfg.max_pages pages_seen.card
    omega
  · rename ¬ url ∈ _ => hnot
    rename ¬ cfg.max_pages ≤ _ => hcard
    simp only [List.length_append, List.length_cons, List.length_nil]
    rw [Finset.card_insert_of_not_mem hnot] at hcard ⊢
    omega
  · rename ¬ url ∈ _ => hnot
    simp only [List.length_cons]
    rw [Finset.card_insert_of_not_mem hnot]
    omega

/-- Model of `BaseMediaScraper.search` (`src/luxnews/media/base.py:103-133`) for one
keyword, returning the accumulated hits and the trace of fetched pages. -/
def search (defn : MediaDefinition) (cfg : SearchConfig) (env : ScraperEnv)
    (keyword : Str) (last_days : Int) : List SearchHit × List Str :=
  searchLoop defn cfg env last_days
    (build_search_urls defn cfg.max_pages env.quote_plus keyword) ∅ ∅ []

/-! ## Fetch retries (`BaseMediaScraper.fetch_search_page`) -/

/-- Outcome of one `requests.get` attempt. -/
inductive FetchResult where
  | ok (html : Str)
  | err (msg : Str)
deriving DecidableEq

/-- The `for attempt in range(1, 4)` loop of `fetch_search_page`
(`src/luxnews/media/base.py:37-44`) over a given list of attempt numbers:
returns the first successful body, or the `RuntimeError` message when every
attempt fails, together with the list of backoff sleeps (`2**attempt`)
performed. -/
def fetchAttempts (url : Str) (attempt_result : Nat → FetchResult) :
    List Nat → Except Str Str × List Nat
  | [] => (.error ("Failed to fetch search page: ".data ++ url), [])
  | a :: rest =>
    match attempt_result a with
    | .ok html => (.ok html, [])
    | .err _ =>
      let r := fetchAttempts url attempt_result rest
      (r.1, 2 ^ a :: r.2)

/-- Model of `BaseMediaScraper.fetch_search_page` (`src/luxnews/media/base.py:33-45`). -/
def fetch_search_page (url : Str) (attempt_result : Nat → FetchResult) :
    Except Str Str × List Nat :=
  fetchAttempts url attempt_result [1, 2, 3]

/-! ## Run orchestration (`run_job` media loop) -/

/-- Model of `models.MediaStatus` (`src/luxnews/models.py:33-37`). -/
structure MediaStatus where
  media : Str
  status : Str
  errors : List Str
deriving DecidableEq, Repr

/-- The collaborators of the `run_job` media loop: registry membership
(`_get_scraper`), the per-media collection step (which may raise), and the
per-article processing step. -/
structure RunEnv where
  known_media : Str → Bool
  collect : Str → Except Str (List (Str × Payload))
  process : Str → Str → Payload → ArticleRecord

/-- The body of the `for media_id in self.config.medias` loop of
`LuxNewsRunner.run_job` (`src/luxnews/core.py:71-127`) for one media source:
unknown media and collection failure yield a `failed` status with no records;
otherwise every collected URL is processed, and any failed article escalates
the status to `partial` while appending its errors. -/
def run_media (env : RunEnv) (media_id : Str) : MediaStatus × List ArticleRecord :=
  if !env.known_media media_id then
    ({ media := media_id, status := "failed".data,
       errors := ["Unknown media: ".data ++ media_id] }, [])
  else
    match env.collect media_id with
    | .error e =>
      ({ media := media_id, status := "failed".data,
         errors := ["Search failed for ".data ++ media_id ++ ": ".data ++ e] }, [])
    | .ok results =>
      let records := results.map fun entry => env.process media_id entry.1 entry.2
      let status := records.foldl
        (fun st r =>
          if r.status = "failed".data then
            { st with status := "partial".data, errors := st.errors ++ r.errors }
          else st)
        { media := media_id, status := "ok".data, errors := [] }
      (status, records)

/-- The media loop of `LuxNewsRunner.run_job` (`src/luxnews/core.py:71-127`):
every configured media source is visited in order, accumulating one status
per source and the concatenation of all article records. -/
def run_job (env : RunEnv) (medias : List Str) :
    List MediaStatus × List ArticleRecord :=
  medias.foldl
    (fun acc media_id =>
      let r := run_media env media_id
      (acc.1 ++ [r.1], acc.2 ++ r.2))
    ([], [])

/-! ## parse_date -/

/-- The exceptions relevant to `parse_date`'s handler. -/
inductive PyExc where
  | valueError (msg : Str)
  | typeError (msg : Str)
  | other (msg : Str)
deriving DecidableEq

/-- A Python `datetime`: its wall-clock reading in seconds and the UTC offset
of its `tzinfo` (none for a naive datetime). -/
structure PyDatetime where
  wall : Int
  tz_offset : Option Int
deriving DecidableEq, Repr

/-- Model of `dt.astimezone(timezone.utc)`: shift an aware wall clock to UTC.  (A naive
input would use the process-local zone; `parse_date` never reaches that case
because it attaches UTC first, and the model takes the local zone to be UTC.) -/
def astimezone_utc (dt : PyDatetime) : PyDatetime :=
  match dt.tz_offset with
  | some off => { wall := dt.wall - off, tz_offset := some 0 }
  | none => { dt with tz_offset := some 0 }

/-- Model of `utils.parse_date` (`src/luxnews/utils.py:24-31`) with
`dateutil.parser.parse(·, fuzzy=True)` as an environment function:
`ValueError`/`TypeError` become `None`, naive results are stamped UTC, and
the result is converted to UTC. -/
def parse_date (parser : Str → Except PyExc PyDatetime) (text : Str) :
    Except PyExc (Option PyDatetime) :=
  match parser text with
  | .error (.valueError _) => .ok none
  | .error (.typeError _) => .ok none
  | .error e => .error e
  | .ok dt =>
    let dt := if dt.tz_offset = none then { dt with tz_offset := some 0 } else dt
    .ok (some (astimezone_utc dt))

/-- A character left fixed by each stage of the normalization pipeline:
it decomposes to itself, carries no combining mark, and is already
lowercase. -/
abbrev stableCh (c : Char) : Prop :=
  decompChar c = [c] ∧ combiningCh c = false ∧ toLowerCh c = c

/-- No two adjacent whitespace characters — the shape `_WHITESPACE_RE.sub`
leaves behind. -/
def noTwoSpaces (a b : Char) : Prop :=
  ¬(isSpaceCh a = true ∧ isSpaceCh b = true)

/-! ## Observers of the merged per-URL map -/

/-- Key list of the association-list model of `hits_by_url`. -/
def keysOf (m : List (Str × Payload)) : List Str :=
  m.map Prod.fst

/-- Dictionary lookup on the association-list model of `hits_by_url`. -/
def lookupUrl (m : List (Str × Payload)) (url : Str) : Option Payload :=
  match m with
  | [] => none
  | (u, p) :: rest => if u = url then some p else lookupUrl rest url

/-- The keyword set recorded for a URL (empty when the URL is absent). -/
def urlKeywords (m : List (Str × Payload)) (url : Str) : Finset Str :=
  (lookupUrl m url).elim ∅ Payload.keywords

/-- The set of configured keywords whose search round produced a hit with
the given URL. -/
def keywordsProducing (search : Str → List SearchHit) (keywords : List Str)
    (url : Str) : Finset Str :=
  (keywords.filter fun kw => (search kw).any fun h => decide (h.url = url)).toFinset

/-! ## Shared helper lemmas -/

theorem subset_of_dropEnds {α : Type} (p : α → Bool) (l : List α) :
    (((l.dropWhile p).reverse.dropWhile p).reverse : List α) ⊆ l := by
  intro c hc
  rw [List.mem_reverse] at hc
  have hc2 := (List.dropWhile_suffix p).subset hc
  rw [List.mem_reverse] at hc2
  exact (List.dropWhile_suffix p).subset hc2

theorem mem_stripWs {c : Char} {l : List Char} (h : c ∈ stripWs l) : c ∈ l :=
  subset_of_dropEnds _ _ h

theorem mem_stripHyphens {c : Char} {l : List Char} (h : c ∈ stripHyphens l) :
    c ∈ l :=
  subset_of_dropEnds _ _ h

theorem mem_collapseWsAux {c : Char} : ∀ {l : List Char} {b : Bool},
    c ∈ collapseWsAux b l → c = ' ' ∨ c ∈ l := by
  intro l
  induction l with
  | nil => intro b h; simp [collapseWsAux] at h
  | cons c' rest ih =>
    intro b h
    unfold collapseWsAux at h
    split at h
    · split at h
      · rcases ih h with h | h
        · exact Or.inl h
        · exact Or.inr (List.mem_cons_of_mem _ h)
      · rcases List.mem_cons.mp h with h | h
        · exact Or.inl h
        · rcases ih h with h | h
          · exact Or.inl h
          · exact Or.inr (List.mem_cons_of_mem _ h)
    · rcases List.mem_cons.mp h with h | h
      · exact Or.inr (h ▸ List.mem_cons_self _ _)
      · rcases ih h with h | h
        · exact Or.inl h
        · exact Or.inr (List.mem_cons_of_mem _ h)

theorem mem_collapseWs {c : Char} {l : List Char}
    (h : c ∈ collapseWs l) : c = ' ' ∨ c ∈ l :=
  mem_collapseWsAux h

/-! ## C4: recency window -/

/-- C4: for every timestamp `t`, window `w` (days) and reference instant
`now`, `is_within_last_days t w now` is true exactly when `t` is at or after
`now` minus `w` days; in particular the exact boundary instant counts as
recent. -/
theorem is_within_last_days_iff_cutoff (t w now : Int) :
    (is_within_last_days t w now = true ↔ now - w * 86400 ≤ t) ∧
      is_within_last_days (now - w * 86400) w now = true := by
  refine ⟨?_, ?_⟩
  · simp [is_within_last_days]
  · simp [is_within_last_days]

/-! ## C5: dateless hits survive the recency filter -/

/-- C5: `filter_hits_by_date` keeps every hit whose `published_at` is absent,
for any reference instant, hit list and window. -/
theorem filter_hits_by_date_keeps_dateless (now last_days : Int)
    (hits : List SearchHit) (h : SearchHit) (hmem : h ∈ hits)
    (hnone : h.published_at = none) :
    h ∈ filter_hits_by_date now hits last_days := by
  refine List.mem_filter.mpr ⟨hmem, ?_⟩
  rw [hnone]

/-- Witness for C5 at a concrete dateless hit. -/
theorem filter_hits_by_date_keeps_dateless_witness :
    (SearchHit.mk "u".data none none none none ∈
        [SearchHit.mk "u".data none none none none] ∧
      (SearchHit.mk "u".data none none none none).published_at = none) ∧
      SearchHit.mk "u".data none none none none ∈
        filter_hits_by_date 0 [SearchHit.mk "u".data none none none none] 2 :=
  ⟨⟨List.mem_singleton.mpr rfl, rfl⟩,
    filter_hits_by_date_keeps_dateless 0 2 _ _ (List.mem_singleton.mpr rfl) rfl⟩

/-! ## C9: parse_date -/

/-- C9: `parse_date` turns a `ValueError`/`TypeError` of the fuzzy parser
into `None` rather than propagating it, returns a datetime whenever the
parser does, and every datetime it returns carries the UTC timezone (offset
zero) — never a naive one. -/
theorem parse_date_none_or_utc (parser : Str → Except PyExc PyDatetime)
    (text : Str) :
    (∀ m, parser text = .error (.valueError m) → parse_date parser text = .ok none) ∧
      (∀ m, parser text = .error (.typeError m) → parse_date parser text = .ok none) ∧
      (∀ dt, parser text = .ok dt → ∃ d, parse_date parser text = .ok (some d)) ∧
      (∀ d, parse_date parser text = .ok (some d) → d.tz_offset = some 0) := by
  refine ⟨?_, ?_, ?_, ?_⟩
  · intro m hm; simp [parse_date, hm]
  · intro m hm; simp [parse_date, hm]
  · intro dt hdt
    exact ⟨astimezone_utc
      (if dt.tz_offset = none then { dt with tz_offset := some 0 } else dt),
      by simp [parse_date, hdt]⟩
  · intro d hd
    unfold parse_date at hd
    rcases hp : parser text with e | dt
    · rcases e with m | m | m <;> simp [hp] at hd
    · rw [hp] at hd
      simp only [Except.ok.injEq, Option.some.injEq] at hd
      rw [← hd]
      unfold astimezone_utc
      split <;> rfl

/-- Witness for C9: a parser returning a naive datetime at wall clock 100. -/
theorem parse_date_none_or_utc_witness :
    ((fun _ => Except.ok (PyDatetime.mk 100 none) : Str → Except PyExc PyDatetime)
        "x".data = .ok (PyDatetime.mk 100 none)) ∧
      (∃ d, parse_date (fun _ => Except.ok (PyDatetime.mk 100 none)) "x".data =
        .ok (some d)) ∧
      (PyDatetime.mk 100 (some 0)).tz_offset = some 0 :=
  ⟨rfl,
    (parse_date_none_or_utc (fun _ => Except.ok (PyDatetime.mk 100 none))
      "x".data).2.2.1 _ rfl,
    (parse_date_none_or_utc (fun _ => Except.ok (PyDatetime.mk 100 none))
      "x".data).2.2.2 _ rfl⟩

/-! ## C10: safe_filename -/

/-- C10: with the default bound 120, `safe_filename` always returns a
non-empty string of length at most 120 whose characters are lowercase ASCII
letters, digits, hyphens, underscores or dots (in particular no spaces), and
an input whose normalization leaves nothing usable yields `"item"`. -/
theorem safe_filename_chars (text : Str) :
    ∀ c ∈ stripHyphens (((normalize_text text).filter keptCh).map
        (fun c => if c == ' ' then '-' else c)),
      (97 ≤ c.toNat ∧ c.toNat ≤ 122) ∨ (48 ≤ c.toNat ∧ c.toNat ≤ 57) ∨
        c = '-' ∨ c = '_' ∨ c = '.' := by
  intro c hc
  have hc2 := mem_stripHyphens hc
  rcases List.mem_map.mp hc2 with ⟨d, hd, rfl⟩
  have hkept := (List.mem_filter.mp hd).2
  by_cases hsp : d = ' '
  · subst hsp; decide
  · simp only [keptCh, Bool.or_eq_true, Bool.and_eq_true, decide_eq_true_eq,
      beq_iff_eq] at hkept
    rw [if_neg (by simpa using hsp)]
    rcases hkept with ((((h | h) | h) | h) | h) | h
    · exact Or.inl h
    · exact Or.inr (Or.inl h)
    · exact Or.inr (Or.inr (Or.inl h))
    · exact Or.inr (Or.inr (Or.inr (Or.inl h)))
    · exact Or.inr (Or.inr (Or.inr (Or.inr h)))
    · exact absurd h hsp

theorem take_item_or_self (q : List Char) (P : Char → Prop)
    (hchars : ∀ c ∈ q, P c) (hitem : ∀ c ∈ ("item".data : List Char), P c) :
    (if q = [] then "item".data else q).take 120 ≠ [] ∧
      ((if q = [] then "item".data else q).take 120).length ≤ 120 ∧
      (∀ c ∈ (if q = [] then "item".data else q).take 120, P c) ∧
      (q = [] → (if q = [] then "item".data else q).take 120 = "item".data) := by
  refine ⟨?_, ?_, ?_, ?_⟩
  · split
    · decide
    · rename_i hne
      intro hcon
      rcases List.take_eq_nil_iff.mp hcon with h | h
      · exact absurd h (by decide)
      · exact hne h
  · rw [List.length_take]
    exact inf_le_left
  · intro c hc
    have hc' := List.take_subset _ _ hc
    split at hc'
    · exact hitem _ hc'
    · exact hchars _ hc'
  · intro h
    rw [if_pos h]
    decide

/-- C10: with the default bound 120, `safe_filename` always returns a
non-empty string of length at most 120 whose characters are lowercase ASCII
letters, digits, hyphens, underscores or dots (in particular no spaces), and
an input whose normalization leaves nothing usable yields `"item"`. -/
theorem safe_filename_shape (text : Str) :
    safe_filename text ≠ [] ∧
      (safe_filename text).length ≤ 120 ∧
      (∀ c ∈ safe_filename text,
        (97 ≤ c.toNat ∧ c.toNat ≤ 122) ∨ (48 ≤ c.toNat ∧ c.toNat ≤ 57) ∨
          c = '-' ∨ c = '_' ∨ c = '.') ∧
      (stripHyphens (((normalize_text text).filter keptCh).map
          (fun c => if c == ' ' then '-' else c)) = [] →
        safe_filename text = "item".data) :=
  take_item_or_self
    (stripHyphens (((normalize_text text).filter keptCh).map
      (fun c => if c == ' ' then '-' else c)))
    (fun c => (97 ≤ c.toNat ∧ c.toNat ≤ 122) ∨ (48 ≤ c.toNat ∧ c.toNat ≤ 57) ∨
      c = '-' ∨ c = '_' ∨ c = '.')
    (safe_filename_chars text) (by decide)

/-- Witness for C10: an input that normalizes to nothing usable. -/
theorem safe_filename_shape_witness :
    (stripHyphens (((normalize_text "!".data).filter keptCh).map
        (fun c => if c == ' ' then '-' else c)) = []) ∧
      safe_filename "!".data = "item".data :=
  ⟨by decide, (safe_filename_shape "!".data).2.2.2 (by decide)⟩

/-! ## C6: keyword matching is a plain substring test -/

theorem mem_matched_keywords_iff (keywords : List Str) (body : Str) (kw : Str)
    (hkw : kw ∈ keywords) :
    kw ∈ matched_keywords_of keywords body ↔
      normalize_text kw <:+: normalize_text body := by
  unfold matched_keywords_of
  rw [List.mem_filter]
  simp [hkw, inStr]

theorem process_article_success_matched (media_id url : Str)
    (keywords : List Str) (snippets0 : List Str) (search_title : Option Str)
    (search_date : Option Int) (pdf_dir run_id run_timestamp : Str)
    (detected_title : Option Str) (extracted_date : Option Int)
    (visible_text : Str) :
    (process_article media_id url keywords snippets0 search_title search_date
        pdf_dir run_id run_timestamp
        (.success detected_title extracted_date visible_text)).matched_keywords
      = matched_keywords_of keywords visible_text := by
  unfold process_article
  by_cases hm : matched_keywords_of keywords visible_text = []
  · simp [hm]
  · simp [hm]

/-- C6: a configured keyword ends up in the processed article's
`matched_keywords` exactly when its normalization occurs as a (plain,
not word-bounded) substring of the normalized article body. -/
theorem process_article_keyword_iff_substring (media_id url : Str)
    (keywords : List Str) (snippets0 : List Str) (search_title : Option Str)
    (search_date : Option Int) (pdf_dir run_id run_timestamp : Str)
    (detected_title : Option Str) (extracted_date : Option Int)
    (visible_text : Str) (kw : Str) (hkw : kw ∈ keywords) :
    kw ∈ (process_article media_id url keywords snippets0 search_title
        search_date pdf_dir run_id run_timestamp
        (.success detected_title extracted_date visible_text)).matched_keywords
      ↔ normalize_text kw <:+: normalize_text visible_text := by
  rw [process_article_success_matched]
  exact mem_matched_keywords_iff keywords visible_text kw hkw

/-- Witness for C6: the keyword `bcl` matches inside the longer token
`xabclq` — a substring hit with no word boundary. -/
theorem process_article_keyword_iff_substring_witness :
    ("bcl".data ∈ ["bcl".data] ∧
        normalize_text "bcl".data <:+: normalize_text "xabclq".data) ∧
      "bcl".data ∈ (process_article "m".data "u".data ["bcl".data] [] none
        none "p".data "r".data "t".data
        (.success none none "xabclq".data)).matched_keywords :=
  ⟨⟨List.mem_singleton.mpr rfl, by decide⟩,
    (process_article_keyword_iff_substring "m".data "u".data ["bcl".data] []
      none none "p".data "r".data "t".data none none "xabclq".data "bcl".data
      (List.mem_singleton.mpr rfl)).mpr (by decide)⟩

/-! ## C2: ArticleRecord status invariants -/

/-- C2: every record `_process_article` returns satisfies the status
invariants — `ok` comes with a PDF path and non-empty matches, `skipped`
comes with no matches and exactly one explanatory error, `failed` comes
with a non-empty error list. -/
theorem process_article_status_invariants (media_id url : Str)
    (keywords : List Str) (snippets0 : List Str) (search_title : Option Str)
    (search_date : Option Int) (pdf_dir run_id run_timestamp : Str)
    (outcome : ArticleOutcome) :
    ((process_article media_id url keywords snippets0 search_title search_date
          pdf_dir run_id run_timestamp outcome).status = "ok".data →
        (process_article media_id url keywords snippets0 search_title
            search_date pdf_dir run_id run_timestamp
            outcome).per_article_pdf_path.isSome = true ∧
          (process_article media_id url keywords snippets0 search_title
            search_date pdf_dir run_id run_timestamp
            outcome).matched_keywords ≠ []) ∧
      ((process_article media_id url keywords snippets0 search_title
          search_date pdf_dir run_id run_timestamp outcome).status =
            "skipped".data →
        (process_article media_id url keywords snippets0 search_title
            search_date pdf_dir run_id run_timestamp
            outcome).matched_keywords = [] ∧
          (process_article media_id url keywords snippets0 search_title
            search_date pdf_dir run_id run_timestamp
            outcome).errors.length = 1) ∧
      ((process_article media_id url keywords snippets0 search_title
          search_date pdf_dir run_id run_timestamp outcome).status =
            "failed".data →
        (process_article media_id url keywords snippets0 search_title
          search_date pdf_dir run_id run_timestamp outcome).errors ≠ []) := by
  cases outcome with
  | failure title published_at date_unknown snippets exc_message artifacts =>
    have hst : (process_article media_id url keywords snippets0 search_title
        search_date pdf_dir run_id run_timestamp
        (.failure title published_at date_unknown snippets exc_message
          artifacts)).status = "failed".data := rfl
    refine ⟨?_, ?_, ?_⟩
    · intro h; rw [hst] at h; exact absurd h (by decide)
    · intro h; rw [hst] at h; exact absurd h (by decide)
    · intro _; exact List.cons_ne_nil _ _
  | success detected_title extracted_date visible_text =>
    by_cases hm : matched_keywords_of keywords visible_text = []
    · refine ⟨?_, ?_, ?_⟩
      · intro h
        rw [show (process_article media_id url keywords snippets0 search_title
            search_date pdf_dir run_id run_timestamp
            (.success detected_title extracted_date visible_text)).status =
              "skipped".data by unfold process_article; simp [hm]] at h
        exact absurd h (by decide)
      · intro _
        unfold process_article
        simp [hm]
      · intro h
        rw [show (process_article media_id url keywords snippets0 search_title
            search_date pdf_dir run_id run_timestamp
            (.success detected_title extracted_date visible_text)).status =
              "skipped".data by unfold process_article; simp [hm]] at h
        exact absurd h (by decide)
    · refine ⟨?_, ?_, ?_⟩
      · intro _
        refine ⟨?_, ?_⟩
        · unfold process_article
          simp [hm]
        · rw [process_article_success_matched]
          exact hm
      · intro h
        rw [show (process_article media_id url keywords snippets0 search_title
            search_date pdf_dir run_id run_timestamp
            (.success detected_title extracted_date visible_text)).status =
              "ok".data by unfold process_article; simp [hm]] at h
        exact absurd h (by decide)
      · intro h
        rw [show (process_article media_id url keywords snippets0 search_title
            search_date pdf_dir run_id run_timestamp
            (.success detected_title extracted_date visible_text)).status =
              "ok".data by unfold process_article; simp [hm]] at h
        exact absurd h (by decide)

/-- Witness for C2: a successful page containing the single keyword. -/
theorem process_article_status_invariants_witness :
    (process_article "m".data "u".data ["abc".data] [] none none "p".data
        "r".data "t".data (.success none none "abc".data)).status = "ok".data ∧
      ((process_article "m".data "u".data ["abc".data] [] none none "p".data
          "r".data "t".data
          (.success none none "abc".data)).per_article_pdf_path.isSome = true ∧
        (process_article "m".data "u".data ["abc".data] [] none none "p".data
          "r".data "t".data
          (.success none none "abc".data)).matched_keywords ≠ []) :=
  ⟨by decide,
    (process_article_status_invariants "m".data "u".data ["abc".data] [] none
      none "p".data "r".data "t".data
      (.success none none "abc".data)).1 (by decide)⟩

/-! ## C8: fetch retries and per-source failure isolation -/

theorem run_job_foldl (env : RunEnv) :
    ∀ (medias : List Str) (acc : List MediaStatus × List ArticleRecord),
      medias.foldl
        (fun acc media_id =>
          let r := run_media env media_id
          (acc.1 ++ [r.1], acc.2 ++ r.2)) acc
      = (acc.1 ++ medias.map fun m => (run_media env m).1,
          acc.2 ++ medias.flatMap fun m => (run_media env m).2) := by
  intro medias
  induction medias with
  | nil => intro acc; simp
  | cons m rest ih =>
    intro acc
    rw [List.foldl_cons, ih]
    simp

/-- C8: a search-page fetch makes at most three attempts, returns the first
success, backs off exponentially (sleeps 2, 4, 8 seconds) and raises after
three failures; and in the run loop a media source whose collection step
fails is marked `failed` while every configured source still produces its
own status entry (the run continues). -/
theorem fetch_retry_and_run_continues (url : Str) (f : Nat → FetchResult)
    (env : RunEnv) (medias : List Str) :
    (fetch_search_page url f).2.length ≤ 3 ∧
      ((∀ a, a ∈ ([1, 2, 3] : List Nat) → ∃ m, f a = .err m) →
        fetch_search_page url f =
          (.error ("Failed to fetch search page: ".data ++ url), [2, 4, 8])) ∧
      (∀ html, f 1 = .ok html → fetch_search_page url f = (.ok html, [])) ∧
      (∀ m2 html, f 1 = .err m2 → f 2 = .ok html →
        fetch_search_page url f = (.ok html, [2])) ∧
      ((run_job env medias).1 = medias.map fun m => (run_media env m).1) ∧
      (∀ m e, env.collect m = .error e → env.known_media m = true →
        (run_media env m).1.status = "failed".data) := by
  refine ⟨?_, ?_, ?_, ?_, ?_, ?_⟩
  · rcases h1 : f 1 with h | m1
    · simp [fetch_search_page, fetchAttempts, h1]
    · rcases h2 : f 2 with h | m2
      · simp [fetch_search_page, fetchAttempts, h1, h2]
      · rcases h3 : f 3 with h | m3 <;>
          simp [fetch_search_page, fetchAttempts, h1, h2, h3]
  · intro hall
    obtain ⟨m1, h1⟩ := hall 1 (by decide)
    obtain ⟨m2, h2⟩ := hall 2 (by decide)
    obtain ⟨m3, h3⟩ := hall 3 (by decide)
    simp [fetch_search_page, fetchAttempts, h1, h2, h3]
  · intro html h1
    simp [fetch_search_page, fetchAttempts, h1]
  · intro m2 html h1 h2
    simp [fetch_search_page, fetchAttempts, h1, h2]
  · rw [run_job, run_job_foldl]
    simp
  · intro m e hc hk
    simp [run_media, hk, hc]

/-- Witness for C8: every attempt fails, and a source whose collection step
fails is marked failed. -/
theorem fetch_retry_and_run_continues_witness :
    ((∀ a, a ∈ ([1, 2, 3] : List Nat) →
        ∃ m, (fun _ => FetchResult.err "x".data : Nat → FetchResult) a = .err m) ∧
      (RunEnv.mk (fun _ => true) (fun _ => .error "boom".data)
          (fun m u _ => process_article m u [] [] none none [] [] []
            (.failure none none true [] [] []))).collect "m".data =
        .error "boom".data) ∧
      fetch_search_page "u".data (fun _ => FetchResult.err "x".data) =
        (.error ("Failed to fetch search page: ".data ++ "u".data), [2, 4, 8]) ∧
      (run_media (RunEnv.mk (fun _ => true) (fun _ => .error "boom".data)
          (fun m u _ => process_article m u [] [] none none [] [] []
            (.failure none none true [] [] []))) "m".data).1.status =
        "failed".data :=
  ⟨⟨fun _ _ => ⟨"x".data, rfl⟩, rfl⟩,
    (fetch_retry_and_run_continues "u".data (fun _ => FetchResult.err "x".data)
      (RunEnv.mk (fun _ => true) (fun _ => .error "boom".data)
        (fun m u _ => process_article m u [] [] none none [] [] []
          (.failure none none true [] [] []))) []).2.1
      (fun _ _ => ⟨"x".data, rfl⟩),
    (fetch_retry_and_run_continues "u".data (fun _ => FetchResult.err "x".data)
      (RunEnv.mk (fun _ => true) (fun _ => .error "boom".data)
        (fun m u _ => process_article m u [] [] none none [] [] []
          (.failure none none true [] [] []))) []).2.2.2.2.2 "m".data
      "boom".data rfl rfl⟩

/-! ## C1: cross-keyword merge -/

theorem updatePayload_keywords (kw : Str) (hit : SearchHit) (p : Payload) :
    (updatePayload kw hit p).keywords = insert kw p.keywords := by
  unfold updatePayload
  dsimp only
  split_ifs <;> rfl

theorem keysOf_setdefaultUpdate (url : Str) (d : Payload)
    (f : Payload → Payload) (m : List (Str × Payload)) :
    keysOf (setdefaultUpdate m url d f)
      = if url ∈ keysOf m then keysOf m else keysOf m ++ [url] := by
  induction m with
  | nil =>
    simp only [setdefaultUpdate, keysOf, List.map_nil, List.map_cons,
      List.not_mem_nil, if_false, List.nil_append]
  | cons e rest ih =>
    obtain ⟨u, p⟩ := e
    by_cases hu : u = url
    · subst hu
      simp only [setdefaultUpdate, if_pos rfl, keysOf, List.map_cons,
        List.mem_cons, true_or, if_true]
    · rw [show setdefaultUpdate ((u, p) :: rest) url d f
          = (u, p) :: setdefaultUpdate rest url d f by
        rw [setdefaultUpdate]; rw [if_neg hu]]
      simp only [keysOf, List.map_cons] at ih ⊢
      rw [ih]
      by_cases hmem : url ∈ rest.map Prod.fst
      · rw [if_pos hmem, if_pos (List.mem_cons_of_mem _ hmem)]
      · rw [if_neg hmem, if_neg ?side]
        · simp
        case side =>
          intro hc
          rcases List.mem_cons.mp hc with h | h
          · exact hu h.symm
          · exact hmem h

theorem nodup_keysOf_setdefaultUpdate (url : Str) (d : Payload)
    (f : Payload → Payload) (m : List (Str × Payload))
    (h : (keysOf m).Nodup) : (keysOf (setdefaultUpdate m url d f)).Nodup := by
  rw [keysOf_setdefaultUpdate]
  split
  · exact h
  · rename_i hmem
    refine List.Nodup.append h (List.nodup_singleton _) ?_
    intro a ha hb
    rw [List.mem_singleton] at hb
    subst hb
    exact hmem ha

theorem lookupUrl_setdefaultUpdate (url u : Str) (d : Payload)
    (f : Payload → Payload) (m : List (Str × Payload)) :
    lookupUrl (setdefaultUpdate m url d f) u
      = if u = url then some (f ((lookupUrl m url).getD d))
        else lookupUrl m u := by
  induction m with
  | nil =>
    by_cases hu : u = url
    · subst hu; simp [setdefaultUpdate, lookupUrl]
    · have hu' : ¬(url = u) := fun h => hu h.symm
      simp [setdefaultUpdate, lookupUrl, hu, hu']
  | cons e rest ih =>
    obtain ⟨u0, p⟩ := e
    by_cases h0 : u0 = url
    · subst h0
      by_cases hu : u = u0
      · subst hu
        simp [setdefaultUpdate, lookupUrl]
      · have hu' : ¬(u0 = u) := fun h => hu h.symm
        simp [setdefaultUpdate, lookupUrl, hu, hu']
    · by_cases hu0 : u0 = u
      · subst hu0
        have hne : ¬(u0 = url) := h0
        simp [setdefaultUpdate, lookupUrl, hne, ih]
      · simp [setdefaultUpdate, lookupUrl, h0, hu0, ih]

theorem urlKeywords_addHit (kw : Str) (hit : SearchHit)
    (m : List (Str × Payload)) (u : Str) :
    urlKeywords (addHit kw m hit) u
      = if u = hit.url then insert kw (urlKeywords m u)
        else urlKeywords m u := by
  unfold urlKeywords addHit
  rw [lookupUrl_setdefaultUpdate]
  by_cases hu : u = hit.url
  · rw [if_pos hu, if_pos hu, hu]
    cases hl : lookupUrl m hit.url with
    | none => simp [hl, updatePayload_keywords, initPayload]
    | some p => simp [hl, updatePayload_keywords]
  · rw [if_neg hu, if_neg hu]

theorem urlKeywords_collectRound (kw : Str) (u : Str) (hits : List SearchHit) :
    ∀ m, urlKeywords (collectRound m kw hits) u
      = if hits.any (fun h => decide (h.url = u))
        then insert kw (urlKeywords m u) else urlKeywords m u := by
  induction hits with
  | nil => intro m; simp [collectRound]
  | cons h hs ih =>
    intro m
    have hstep : collectRound m kw (h :: hs) = collectRound (addHit kw m h) kw hs := by
      simp [collectRound]
    rw [hstep, ih, urlKeywords_addHit]
    by_cases hu : h.url = u
    · rw [if_pos hu.symm]
      have hany : ((h :: hs).any fun x => decide (x.url = u)) = true := by
        simp [hu]
      rw [if_pos hany]
      split <;> simp [Finset.insert_idem]
    · have hu' : ¬(u = h.url) := fun e => hu e.symm
      rw [if_neg hu']
      have : ((h :: hs).any fun x => decide (x.url = u))
          = (hs.any fun x => decide (x.url = u)) := by
        simp [List.any_cons, hu]
      rw [this]

theorem urlKeywords_fold (search : Str → List SearchHit) (u : Str)
    (keywords : List Str) :
    ∀ m, urlKeywords
        (keywords.foldl (fun m kw => collectRound m kw (search kw)) m) u
      = keywordsProducing search keywords u ∪ urlKeywords m u := by
  induction keywords with
  | nil => intro m; simp [keywordsProducing]
  | cons kw ks ih =>
    intro m
    rw [List.foldl_cons, ih, urlKeywords_collectRound]
    unfold keywordsProducing
    by_cases hany : (search kw).any (fun h => decide (h.url = u)) = true
    · rw [if_pos hany, List.filter_cons_of_pos (by simpa using hany),
        List.toFinset_cons]
      rw [Finset.union_insert, Finset.insert_union]
    · rw [if_neg hany, List.filter_cons_of_neg (by simpa using hany)]

theorem lookupUrl_map_values (g : Payload → Payload) (u : Str) :
    ∀ m : List (Str × Payload),
      lookupUrl (m.map fun e => (e.1, g e.2)) u = (lookupUrl m u).map g := by
  intro m
  induction m with
  | nil => simp [lookupUrl]
  | cons e rest ih =>
    obtain ⟨u0, p⟩ := e
    by_cases h0 : u0 = u
    · subst h0; simp [lookupUrl]
    · simp [lookupUrl, h0, ih]

theorem keysOf_map_values (g : Payload → Payload) (m : List (Str × Payload)) :
    keysOf (m.map fun e => (e.1, g e.2)) = keysOf m := by
  simp [keysOf, List.map_map]

theorem nodup_keysOf_collectRound (kw : Str) (hits : List SearchHit) :
    ∀ m, (keysOf m).Nodup → (keysOf (collectRound m kw hits)).Nodup := by
  induction hits with
  | nil => intro m h; simpa [collectRound] using h
  | cons h hs ih =>
    intro m hm
    have hstep : collectRound m kw (h :: hs) = collectRound (addHit kw m h) kw hs := by
      simp [collectRound]
    rw [hstep]
    exact ih _ (nodup_keysOf_setdefaultUpdate _ _ _ _ hm)

theorem nodup_keysOf_fold (search : Str → List SearchHit)
    (keywords : List Str) :
    ∀ m, (keysOf m).Nodup →
      (keysOf (keywords.foldl (fun m kw => collectRound m kw (search kw)) m)).Nodup := by
  induction keywords with
  | nil => intro m h; simpa using h
  | cons kw ks ih =>
    intro m hm
    rw [List.foldl_cons]
    exact ih _ (nodup_keysOf_collectRound kw (search kw) m hm)

theorem mem_keysOf_setdefaultUpdate (url u : Str) (d : Payload)
    (f : Payload → Payload) (m : List (Str × Payload)) :
    u ∈ keysOf (setdefaultUpdate m url d f) ↔ u ∈ keysOf m ∨ u = url := by
  rw [keysOf_setdefaultUpdate]
  split
  · rename_i hmem
    constructor
    · exact Or.inl
    · rintro (h | rfl)
      · exact h
      · exact hmem
  · simp [List.mem_append]

theorem mem_keysOf_collectRound (kw u : Str) (hits : List SearchHit) :
    ∀ m, u ∈ keysOf (collectRound m kw hits) ↔
      u ∈ keysOf m ∨ ∃ h ∈ hits, h.url = u := by
  induction hits with
  | nil => intro m; simp [collectRound]
  | cons h hs ih =>
    intro m
    have hstep : collectRound m kw (h :: hs) = collectRound (addHit kw m h) kw hs := by
      simp [collectRound]
    rw [hstep, ih]
    unfold addHit
    rw [mem_keysOf_setdefaultUpdate]
    constructor
    · rintro ((hm | rfl) | ⟨x, hx, rfl⟩)
      · exact Or.inl hm
      · exact Or.inr ⟨h, List.mem_cons_self _ _, rfl⟩
      · exact Or.inr ⟨x, List.mem_cons_of_mem _ hx, rfl⟩
    · rintro (hm | ⟨x, hx, rfl⟩)
      · exact Or.inl (Or.inl hm)
      · rcases List.mem_cons.mp hx with rfl | hx
        · exact Or.inl (Or.inr rfl)
        · exact Or.inr ⟨x, hx, rfl⟩

theorem mem_keysOf_fold (search : Str → List SearchHit) (u : Str)
    (keywords : List Str) :
    ∀ m, u ∈ keysOf (keywords.foldl (fun m kw => collectRound m kw (search kw)) m) ↔
      u ∈ keysOf m ∨ ∃ kw ∈ keywords, ∃ h ∈ search kw, h.url = u := by
  induction keywords with
  | nil => intro m; simp
  | cons kw ks ih =>
    intro m
    rw [List.foldl_cons, ih, mem_keysOf_collectRound]
    constructor
    · rintro ((hm | hh) | ⟨k, hk, hh⟩)
      · exact Or.inl hm
      · exact Or.inr ⟨kw, List.mem_cons_self _ _, hh⟩
      · exact Or.inr ⟨k, List.mem_cons_of_mem _ hk, hh⟩
    · rintro (hm | ⟨k, hk, hh⟩)
      · exact Or.inl (Or.inl hm)
      · rcases List.mem_cons.mp hk with rfl | hk
        · exact Or.inl (Or.inr hh)
        · exact Or.inr ⟨k, hk, hh⟩

theorem urlKeywords_collect (search : Str → List SearchHit)
    (keywords : List Str) (u : Str) :
    urlKeywords (collect_search_hits search keywords) u
      = keywordsProducing search keywords u := by
  have hmap := lookupUrl_map_values
    (fun p => { p with snippets := unique_preserve_order p.snippets }) u
    (keywords.foldl (fun m kw => collectRound m kw (search kw)) [])
  have hfold := urlKeywords_fold search u keywords []
  rw [show urlKeywords ([] : List (Str × Payload)) u = ∅ from rfl,
    Finset.union_empty] at hfold
  unfold urlKeywords at hfold ⊢
  rw [show lookupUrl (collect_search_hits search keywords) u
      = (lookupUrl
          (keywords.foldl (fun m kw => collectRound m kw (search kw)) []) u).map
        (fun p => { p with snippets := unique_preserve_order p.snippets })
      from hmap]
  cases hl : lookupUrl
      (keywords.foldl (fun m kw => collectRound m kw (search kw)) []) u with
  | none =>
    rw [hl] at hfold
    simpa using hfold
  | some p =>
    rw [hl] at hfold
    simpa using hfold

/-- C1: `_collect_search_hits` produces one merged entry per distinct URL
(the key list has no duplicates, and a URL is present exactly when some
keyword's round produced a hit with it), the keyword set stored for a URL is
exactly the set of keywords whose round produced that URL, and those per-URL
keyword sets are invariant under permuting the keyword list. -/
theorem collect_search_hits_merge (search : Str → List SearchHit)
    (keywords keywords' : List Str) (hperm : keywords.Perm keywords') :
    (keysOf (collect_search_hits search keywords)).Nodup ∧
      (∀ url p, lookupUrl (collect_search_hits search keywords) url = some p →
        p.keywords = keywordsProducing search keywords url) ∧
      (∀ url, url ∈ keysOf (collect_search_hits search keywords) ↔
        ∃ kw ∈ keywords, ∃ h ∈ search kw, h.url = url) ∧
      (∀ url, urlKeywords (collect_search_hits search keywords) url =
        urlKeywords (collect_search_hits search keywords') url) := by
  have hkeys := keysOf_map_values
    (fun p => { p with snippets := unique_preserve_order p.snippets })
    (keywords.foldl (fun m kw => collectRound m kw (search kw)) [])
  refine ⟨?_, ?_, ?_, ?_⟩
  · rw [show keysOf (collect_search_hits search keywords)
        = keysOf (keywords.foldl (fun m kw => collectRound m kw (search kw)) [])
        from hkeys]
    exact nodup_keysOf_fold search keywords [] (by simp [keysOf])
  · intro url p hp
    have := urlKeywords_collect search keywords url
    unfold urlKeywords at this
    rw [hp] at this
    simpa using this
  · intro url
    rw [show keysOf (collect_search_hits search keywords)
        = keysOf (keywords.foldl (fun m kw => collectRound m kw (search kw)) [])
        from hkeys]
    have hm := mem_keysOf_fold search url keywords []
    have hnil : url ∈ keysOf ([] : List (Str × Payload)) ↔ False := by
      simp [keysOf]
    rw [hm, hnil, false_or]
  · intro url
    rw [urlKeywords_collect, urlKeywords_collect]
    unfold keywordsProducing
    exact List.toFinset_eq_of_perm _ _
      (hperm.filter fun kw => (search kw).any fun h => decide (h.url = url))

/-- Witness for C1: two keywords producing the same URL, in both orders. -/
theorem collect_search_hits_merge_witness :
    (["a".data, "b".data] : List Str).Perm ["b".data, "a".data] ∧
      (keysOf (collect_search_hits
        (fun _ => [SearchHit.mk "u".data none none none none])
        ["a".data, "b".data])).Nodup ∧
      (∀ url, urlKeywords (collect_search_hits
          (fun _ => [SearchHit.mk "u".data none none none none])
          ["a".data, "b".data]) url =
        urlKeywords (collect_search_hits
          (fun _ => [SearchHit.mk "u".data none none none none])
          ["b".data, "a".data]) url) :=
  ⟨List.Perm.swap _ _ _,
    (collect_search_hits_merge
      (fun _ => [SearchHit.mk "u".data none none none none])
      ["a".data, "b".data] ["b".data, "a".data] (List.Perm.swap _ _ _)).1,
    (collect_search_hits_merge
      (fun _ => [SearchHit.mk "u".data none none none none])
      ["a".data, "b".data] ["b".data, "a".data] (List.Perm.swap _ _ _)).2.2.2⟩

/-! ## C3: the search pagination loop terminates within max_pages + 1 fetches -/

set_option maxHeartbeats 1000000 in
theorem searchLoop_fetch_bound (defn : MediaDefinition) (cfg : SearchConfig)
    (env : ScraperEnv) (last_days : Int) :
    ∀ queue pages_seen seen_urls hits,
      (searchLoop defn cfg env last_days queue pages_seen seen_urls hits).2.length
        ≤ queue.length + (cfg.max_pages - pages_seen.card) := by
  intro queue pages_seen seen_urls hits
  induction queue, pages_seen, seen_urls, hits
    using searchLoop.induct defn cfg env last_days
  case case1 => simp [searchLoop]
  case case2 ps su hs url rest hmem ih =>
    simp only [searchLoop]
    rw [if_pos hmem]
    refine le_trans ih ?_
    simp only [List.length_cons]
    omega
  case case3 ps su hs url rest hnot v1 v2 v3 v4 hnil =>
    simp only [searchLoop]
    rw [if_neg hnot, if_pos hnil]
    simp
    try omega
  case case4 ps su hs url rest hnot v1 v2 v3 v4 v5 hnil hmax =>
    simp only [searchLoop]
    rw [if_neg hnot, if_neg hnil, if_pos hmax]
    simp
    try omega
  case case5 ps su hs url rest hnot v0 v1 v2 v3 v4 v5 hnil hmax hpage hcard =>
    simp only [searchLoop]
    rw [if_neg hnot, if_neg hnil, if_neg hmax, if_pos hpage, if_pos hcard]
    simp
    try omega
  case case6 ps su hs url rest hnot v0 v1 v2 v3 v4 v5 hnil hmax hpage hcard hdet =>
    simp only [searchLoop]
    rw [if_neg hnot, if_neg hnil, if_neg hmax, if_pos hpage, if_neg hcard, hdet]
    simp
    try omega
  case case7 ps su hs url rest hnot v0 v1 v2 v3 v4 v5 hnil hmax hpage hcard s hdet hseen =>
    simp only [searchLoop]
    rw [if_neg hnot, if_neg hnil, if_neg hmax, if_pos hpage, if_neg hcard, hdet]
    simp [show s ∈ insert url ps from hseen]
    try omega
  case case8 ps su hs url rest hnot v0 v1 v2 v3 v4 v5 v6 hnil hmax hpage hcard s hdet hs2 ih =>
    have hci : (insert url ps).card = ps.card + 1 :=
      Finset.card_insert_of_not_mem hnot
    simp only [searchLoop]
    rw [if_neg hnot, if_neg hnil, if_neg hmax, if_pos hpage, if_neg hcard, hdet]
    unfold_let at ih hcard
    rw [hci] at hcard
    simp [show s ∉ insert url ps from hs2, hci] at ih ⊢
    omega
  case case9 ps su hs url rest hnot v0 v1 v2 v3 v4 v5 v6 hnil hmax hpage ih =>
    have hci : (insert url ps).card = ps.card + 1 :=
      Finset.card_insert_of_not_mem hnot
    simp only [searchLoop]
    rw [if_neg hnot, if_neg hnil, if_neg hmax, if_neg hpage]
    unfold_let at ih
    simp [hci] at ih ⊢
    omega

set_option maxHeartbeats 1000000 in
theorem searchLoop_fetch_bound_placeholder (defn : MediaDefinition)
    (cfg : SearchConfig) (env : ScraperEnv) (last_days : Int)
    (hpage : inStr "{page}".data defn.search_url = true) :
    ∀ queue pages_seen seen_urls hits,
      (searchLoop defn cfg env last_days queue pages_seen seen_urls hits).2.length
        ≤ queue.length := by
  intro queue pages_seen seen_urls hits
  induction queue, pages_seen, seen_urls, hits
    using searchLoop.induct defn cfg env last_days
  case case1 => simp [searchLoop]
  case case2 ps su hs url rest hmem ih =>
    simp only [searchLoop]
    rw [if_pos hmem]
    refine le_trans ih ?_
    simp only [List.length_cons]
    omega
  case case3 ps su hs url rest hnot v1 v2 v3 v4 hnil =>
    simp only [searchLoop]
    rw [if_neg hnot, if_pos hnil]
    simp
    try omega
  case case4 ps su hs url rest hnot v1 v2 v3 v4 v5 hnil hmax =>
    simp only [searchLoop]
    rw [if_neg hnot, if_neg hnil, if_pos hmax]
    simp
    try omega
  case case5 ps su hs url rest hnot v0 v1 v2 v3 v4 v5 hnil hmax hpage2 hcard =>
    rw [hpage] at hpage2
    exact absurd hpage2 (by decide)
  case case6 ps su hs url rest hnot v0 v1 v2 v3 v4 v5 hnil hmax hpage2 hcard hdet =>
    rw [hpage] at hpage2
    exact absurd hpage2 (by decide)
  case case7 ps su hs url rest hnot v0 v1 v2 v3 v4 v5 hnil hmax hpage2 hcard s hdet hseen =>
    rw [hpage] at hpage2
    exact absurd hpage2 (by decide)
  case case8 ps su hs url rest hnot v0 v1 v2 v3 v4 v5 v6 hnil hmax hpage2 hcard s hdet hs2 ih =>
    rw [hpage] at hpage2
    exact absurd hpage2 (by decide)
  case case9 ps su hs url rest hnot v0 v1 v2 v3 v4 v5 v6 hnil hmax hpage2 ih =>
    simp only [searchLoop]
    rw [if_neg hnot, if_neg hnil, if_neg hmax, if_neg hpage2]
    unfold_let at ih
    simp at ih ⊢
    omega

/-- C3: for any environment, `search` fetches at most `max_pages + 1` result
pages, and the loop's stop conditions act in order after each fetched page:
zero new hits stops it, then reaching `max_results` accumulated hits stops
it, and for a template without a `{page}` placeholder it stops when
`max_pages` pages have been visited, when no next page is detected, or when
the detected next page was already visited. -/
theorem search_pagination_terminates (defn : MediaDefinition)
    (cfg : SearchConfig) (env : ScraperEnv) (keyword : Str) (last_days : Int) :
    (search defn cfg env keyword last_days).2.length ≤ cfg.max_pages + 1 ∧
      (∀ url rest ps su hs, url ∉ ps →
        ((filter_hits_by_date env.now (env.parse (env.fetch url) url)
            last_days).filter fun h => decide (h.url ∉ su)) = [] →
        (searchLoop defn cfg env last_days (url :: rest) ps su hs).2 = [url]) ∧
      (∀ url rest ps su hs, url ∉ ps →
        ¬((filter_hits_by_date env.now (env.parse (env.fetch url) url)
            last_days).filter fun h => decide (h.url ∉ su)) = [] →
        cfg.max_results ≤ (hs ++ ((filter_hits_by_date env.now
            (env.parse (env.fetch url) url) last_days).filter
            fun h => decide (h.url ∉ su))).length →
        (searchLoop defn cfg env last_days (url :: rest) ps su hs).2 = [url]) ∧
      (∀ url rest ps su hs, url ∉ ps →
        ¬((filter_hits_by_date env.now (env.parse (env.fetch url) url)
            last_days).filter fun h => decide (h.url ∉ su)) = [] →
        ¬cfg.max_results ≤ (hs ++ ((filter_hits_by_date env.now
            (env.parse (env.fetch url) url) last_days).filter
            fun h => decide (h.url ∉ su))).length →
        inStr "{page}".data defn.search_url = false →
        cfg.max_pages ≤ (insert url ps).card →
        (searchLoop defn cfg env last_days (url :: rest) ps su hs).2 = [url]) ∧
      (∀ url rest ps su hs, url ∉ ps →
        ¬((filter_hits_by_date env.now (env.parse (env.fetch url) url)
            last_days).filter fun h => decide (h.url ∉ su)) = [] →
        ¬cfg.max_results ≤ (hs ++ ((filter_hits_by_date env.now
            (env.parse (env.fetch url) url) last_days).filter
            fun h => decide (h.url ∉ su))).length →
        inStr "{page}".data defn.search_url = false →
        ¬cfg.max_pages ≤ (insert url ps).card →
        env.detect_next (env.fetch url) url = none →
        (searchLoop defn cfg env last_days (url :: rest) ps su hs).2 = [url]) ∧
      (∀ url rest ps su hs next_url, url ∉ ps →
        ¬((filter_hits_by_date env.now (env.parse (env.fetch url) url)
            last_days).filter fun h => decide (h.url ∉ su)) = [] →
        ¬cfg.max_results ≤ (hs ++ ((filter_hits_by_date env.now
            (env.parse (env.fetch url) url) last_days).filter
            fun h => decide (h.url ∉ su))).length →
        inStr "{page}".data defn.search_url = false →
        ¬cfg.max_pages ≤ (insert url ps).card →
        env.detect_next (env.fetch url) url = some next_url →
        next_url ∈ insert url ps →
        (searchLoop defn cfg env last_days (url :: rest) ps su hs).2 = [url]) := by
  refine ⟨?_, ?_, ?_, ?_, ?_, ?_⟩
  · unfold search build_search_urls
    by_cases hpage : inStr "{page}".data defn.search_url = true
    · rw [if_pos hpage]
      refine le_trans (searchLoop_fetch_bound_placeholder defn cfg env
        last_days hpage _ _ _ _) ?_
      simp
    · rw [if_neg hpage]
      refine le_trans (searchLoop_fetch_bound defn cfg env last_days _ _ _ _) ?_
      simp
      omega
  · intro url rest ps su hs hnot hnil
    simp only [searchLoop]
    rw [if_neg hnot, if_pos hnil]
  · intro url rest ps su hs hnot hnil hmax
    simp only [searchLoop]
    rw [if_neg hnot, if_neg hnil, if_pos hmax]
  · intro url rest ps su hs hnot hnil hmax hpage hcard
    simp only [searchLoop]
    rw [if_neg hnot, if_neg hnil, if_neg hmax,
      if_pos (show (!inStr "{page}".data defn.search_url) = true by
        rw [hpage]; rfl), if_pos hcard]
  · intro url rest ps su hs hnot hnil hmax hpage hcard hdet
    simp only [searchLoop]
    rw [if_neg hnot, if_neg hnil, if_neg hmax,
      if_pos (show (!inStr "{page}".data defn.search_url) = true by
        rw [hpage]; rfl), if_neg hcard, hdet]
  · intro url rest ps su hs next_url hnot hnil hmax hpage hcard hdet hseen
    simp only [searchLoop]
    rw [if_neg hnot, if_neg hnil, if_neg hmax,
      if_pos (show (!inStr "{page}".data defn.search_url) = true by
        rw [hpage]; rfl), if_neg hcard, hdet]
    simp [hseen]

/-- Witness for C3: an environment whose pages carry no hits stops after the
first fetch. -/
theorem search_pagination_terminates_witness :
    (("x".data : Str) ∉ (∅ : Finset Str) ∧
      ((filter_hits_by_date (0 : Int) (([] : List SearchHit)) 2).filter
        fun h => decide (h.url ∉ (∅ : Finset Str))) = []) ∧
      (searchLoop (MediaDefinition.mk "m".data "u".data "d".data [])
          (SearchConfig.mk 1 200)
          (ScraperEnv.mk (fun s => s) (fun _ => []) (fun _ _ => [])
            (fun _ _ => none) 0) 2 ["x".data] ∅ ∅ []).2 = ["x".data] :=
  ⟨⟨Finset.not_mem_empty _, rfl⟩,
    (search_pagination_terminates (MediaDefinition.mk "m".data "u".data "d".data [])
      (SearchConfig.mk 1 200)
      (ScraperEnv.mk (fun s => s) (fun _ => []) (fun _ _ => [])
        (fun _ _ => none) 0) "k".data 2).2.1 "x".data [] ∅ ∅ []
      (Finset.not_mem_empty _) rfl⟩

/-! ## C7: normalize_text is idempotent -/

theorem toLowerCh_toNat_of_upper (c : Char) (h1 : 65 ≤ c.toNat)
    (h2 : c.toNat ≤ 90) : (toLowerCh c).toNat = c.toNat + 32 := by
  unfold toLowerCh
  rw [dif_pos ⟨h1, h2⟩]
  rfl

theorem toLowerCh_eq_self_of_not_upper (c : Char)
    (h : ¬(65 ≤ c.toNat ∧ c.toNat ≤ 90)) : toLowerCh c = c := by
  unfold toLowerCh
  rw [dif_neg h]

theorem combiningCh_eq_false_of_lt (c : Char) (h : c.toNat < 768) :
    combiningCh c = false := by
  unfold combiningCh
  have h1 : ¬(768 ≤ c.toNat) := by omega
  simp [h1]

theorem decompChar_cases (c d : Char) (hd : d ∈ decompChar c) :
    (decompChar c = [c] ∧ d = c) ∨
      ∃ e ∈ decompTable, e.1 = c ∧ d ∈ e.2 := by
  unfold decompChar at hd ⊢
  cases hfind : decompTable.find? (fun e => e.1 == c) with
  | none =>
    rw [hfind] at hd
    rw [List.mem_singleton] at hd
    exact Or.inl ⟨rfl, hd⟩
  | some e =>
    rw [hfind] at hd
    have hp := List.find?_some hfind
    have hm := List.mem_of_find?_eq_some hfind
    exact Or.inr ⟨e, hm, by simpa using hp, hd⟩

theorem decompChar_eq_self (c : Char) (h : c.toNat < 192) :
    decompChar c = [c] := by
  unfold decompChar
  have hfind : decompTable.find? (fun e => e.1 == c) = none := by
    rw [List.find?_eq_none]
    intro e he
    have hall : ∀ x ∈ decompTable, 192 ≤ x.1.toNat := by decide
    have hge : 192 ≤ e.1.toNat := hall e he
    simp only [beq_iff_eq]
    intro hec
    rw [hec] at hge
    omega
  rw [hfind]

theorem stable_lower_range (c : Char) (h1 : 97 ≤ c.toNat)
    (h2 : c.toNat ≤ 122) : stableCh c :=
  ⟨decompChar_eq_self c (by omega), combiningCh_eq_false_of_lt c (by omega),
    toLowerCh_eq_self_of_not_upper c (by omega)⟩

theorem decomp_out_stable (c d : Char) (hd : d ∈ decompChar c)
    (hcomb : combiningCh d = false) : stableCh (toLowerCh d) := by
  rcases decompChar_cases c d hd with ⟨hdc, rfl⟩ | ⟨e, he, he1, hde⟩
  · by_cases hu : 65 ≤ d.toNat ∧ d.toNat ≤ 90
    · refine stable_lower_range _ ?_ ?_ <;>
        rw [toLowerCh_toNat_of_upper d hu.1 hu.2] <;> omega
    · rw [toLowerCh_eq_self_of_not_upper d hu]
      exact ⟨hdc, hcomb, toLowerCh_eq_self_of_not_upper d hu⟩
  · have key : ∀ e ∈ decompTable, ∀ d ∈ e.2,
        combiningCh d = false → stableCh (toLowerCh d) := by decide
    exact key e he d hde hcomb

theorem normalize_chars_stable (l : Str) : ∀ c ∈ normalize_text l, stableCh c := by
  intro c hc
  unfold normalize_text at hc
  have hc1 := mem_stripWs hc
  rcases mem_collapseWs hc1 with rfl | hc2
  · decide
  · rcases List.mem_map.mp hc2 with ⟨d, hd, rfl⟩
    have hdf := List.mem_filter.mp hd
    rcases List.mem_flatMap.mp hdf.1 with ⟨a, _, hda⟩
    have hcombd : combiningCh d = false := by simpa using hdf.2
    exact decomp_out_stable a d hda hcombd

theorem flatMap_decomp_id {l : Str} (h : ∀ c ∈ l, stableCh c) :
    l.flatMap decompChar = l := by
  induction l with
  | nil => rfl
  | cons c rest ih =>
    rw [List.flatMap_cons, (h c (List.mem_cons_self _ _)).1,
      ih fun d hd => h d (List.mem_cons_of_mem _ hd)]
    rfl

theorem filter_noncomb_id {l : Str} (h : ∀ c ∈ l, stableCh c) :
    l.filter (fun c => !combiningCh c) = l :=
  List.filter_eq_self.mpr fun c hc => by rw [(h c hc).2.1]; rfl

theorem map_lower_id {l : Str} (h : ∀ c ∈ l, stableCh c) :
    l.map toLowerCh = l := by
  induction l with
  | nil => rfl
  | cons c rest ih =>
    rw [List.map_cons, (h c (List.mem_cons_self _ _)).2.2,
      ih fun d hd => h d (List.mem_cons_of_mem _ hd)]

theorem collapseWsAux_spaces {c : Char} : ∀ {l : List Char} {b : Bool},
    c ∈ collapseWsAux b l → isSpaceCh c = true → c = ' ' := by
  intro l
  induction l with
  | nil => intro b h _; simp [collapseWsAux] at h
  | cons d rest ih =>
    intro b h hs
    unfold collapseWsAux at h
    split at h
    · split at h
      · exact ih h hs
      · rcases List.mem_cons.mp h with rfl | h
        · rfl
        · exact ih h hs
    · rcases List.mem_cons.mp h with rfl | h
      · rename_i hd
        exact absurd hs hd
      · exact ih h hs

theorem collapseWsAux_head_true : ∀ (l : List Char) (h : Char),
    (collapseWsAux true l).head? = some h → isSpaceCh h = false := by
  intro l
  induction l with
  | nil => intro h hh; simp [collapseWsAux] at hh
  | cons d rest ih =>
    intro h hh
    by_cases hd : isSpaceCh d = true
    · rw [show collapseWsAux true (d :: rest) = collapseWsAux true rest by
        simp only [collapseWsAux]; rw [if_pos hd]; simp] at hh
      exact ih h hh
    · rw [show collapseWsAux true (d :: rest) = d :: collapseWsAux false rest by
        simp only [collapseWsAux]; rw [if_neg hd]] at hh
      simp only [List.head?_cons, Option.some.injEq] at hh
      subst hh
      simpa using hd

theorem chain'_collapseWsAux : ∀ (l : List Char) (b : Bool),
    List.Chain' noTwoSpaces (collapseWsAux b l) := by
  intro l
  induction l with
  | nil => intro b; simp [collapseWsAux]
  | cons d rest ih =>
    intro b
    by_cases hd : isSpaceCh d = true
    · cases b
      · rw [show collapseWsAux false (d :: rest) = ' ' :: collapseWsAux true rest by
          simp only [collapseWsAux]; rw [if_pos hd]; simp]
        rw [List.chain'_cons']
        refine ⟨?_, ih true⟩
        intro y hy hcon
        have := collapseWsAux_head_true rest y hy
        rw [this] at hcon
        exact absurd hcon.2 (by decide)
      · rw [show collapseWsAux true (d :: rest) = collapseWsAux true rest by
          simp only [collapseWsAux]; rw [if_pos hd]; simp]
        exact ih true
    · rw [show collapseWsAux b (d :: rest) = d :: collapseWsAux false rest by
        simp only [collapseWsAux]; rw [if_neg hd]]
      rw [List.chain'_cons']
      refine ⟨?_, ih false⟩
      intro y _ hcon
      exact hd hcon.1

theorem head?_dropWhile_not {α : Type} (p : α → Bool) :
    ∀ (l : List α) (h : α), (l.dropWhile p).head? = some h → p h = false := by
  intro l
  induction l with
  | nil => intro h hh; simp at hh
  | cons d rest ih =>
    intro h hh
    rw [List.dropWhile_cons] at hh
    by_cases hp : p d = true
    · rw [if_pos hp] at hh
      exact ih h hh
    · rw [if_neg hp] at hh
      simp only [List.head?_cons, Option.some.injEq] at hh
      subst hh
      simpa using hp

theorem dropWhile_eq_self_of_head {α : Type} (p : α → Bool) (l : List α)
    (h : ∀ x, l.head? = some x → p x = false) : l.dropWhile p = l := by
  cases l with
  | nil => rfl
  | cons c rest =>
    rw [List.dropWhile_cons, if_neg]
    simp [h c rfl]

theorem getLast?_of_suffix {α : Type} {l' l : List α} (h : l' <:+ l)
    (hne : l' ≠ []) : l'.getLast? = l.getLast? := by
  obtain ⟨t, rfl⟩ := h
  rw [List.getLast?_append]
  cases hl : l'.getLast? with
  | none => exact absurd (List.getLast?_eq_none.mp hl) hne
  | some a => rfl

theorem head?_stripWs_false (l : List Char) :
    ∀ h, (stripWs l).head? = some h → isSpaceCh h = false := by
  intro h hh
  unfold stripWs at hh
  rw [List.head?_reverse] at hh
  have hne : (l.dropWhile isSpaceCh).reverse.dropWhile isSpaceCh ≠ [] := by
    intro hcon
    rw [hcon] at hh
    simp at hh
  rw [getLast?_of_suffix (List.dropWhile_suffix isSpaceCh) hne,
    List.getLast?_reverse] at hh
  exact head?_dropWhile_not isSpaceCh l h hh

theorem getLast?_stripWs_false (l : List Char) :
    ∀ h, (stripWs l).getLast? = some h → isSpaceCh h = false := by
  intro h hh
  unfold stripWs at hh
  rw [List.getLast?_reverse] at hh
  exact head?_dropWhile_not isSpaceCh _ h hh

theorem chain'_stripWs {l : List Char} (h : List.Chain' noTwoSpaces l) :
    List.Chain' noTwoSpaces (stripWs l) := by
  have hsym : ∀ {m : List Char}, List.Chain' noTwoSpaces m →
      List.Chain' noTwoSpaces m.reverse := by
    intro m hm
    rw [List.chain'_reverse]
    exact hm.imp fun a b hab hc => hab ⟨hc.2, hc.1⟩
  exact hsym ((hsym (h.suffix (List.dropWhile_suffix _))).suffix
    (List.dropWhile_suffix _))

theorem collapseWsAux_true_eq_false (l : List Char)
    (hh : ∀ h, l.head? = some h → isSpaceCh h = false) :
    collapseWsAux true l = collapseWsAux false l := by
  cases l with
  | nil => rfl
  | cons d rest =>
    have hd : ¬(isSpaceCh d = true) := by simp [hh d rfl]
    simp only [collapseWsAux]
    rw [if_neg hd, if_neg hd]

theorem collapseWsAux_false_id : ∀ (l : List Char),
    (∀ c ∈ l, isSpaceCh c = true → c = ' ') →
    List.Chain' noTwoSpaces l → collapseWsAux false l = l := by
  intro l
  induction l with
  | nil => intro _ _; rfl
  | cons d rest ih =>
    intro hsp hch
    have hch' := List.chain'_cons'.mp hch
    by_cases hd : isSpaceCh d = true
    · have hd' : d = ' ' := hsp d (List.mem_cons_self _ _) hd
      have hresthead : ∀ h, rest.head? = some h → isSpaceCh h = false := by
        intro h hh
        by_cases hs : isSpaceCh h = true
        · exact absurd ⟨hd, hs⟩ (hch'.1 h hh)
        · simpa using hs
      simp only [collapseWsAux]
      rw [if_pos hd, if_neg (show ¬((false : Bool) = true) by decide),
        collapseWsAux_true_eq_false rest hresthead,
        ih (fun c hc => hsp c (List.mem_cons_of_mem _ hc)) hch'.2, hd']
    · simp only [collapseWsAux]
      rw [if_neg hd,
        ih (fun c hc => hsp c (List.mem_cons_of_mem _ hc)) hch'.2]

theorem stripWs_id (l : List Char)
    (hhead : ∀ h, l.head? = some h → isSpaceCh h = false)
    (hlast : ∀ h, l.getLast? = some h → isSpaceCh h = false) :
    stripWs l = l := by
  unfold stripWs
  rw [dropWhile_eq_self_of_head isSpaceCh l hhead,
    dropWhile_eq_self_of_head isSpaceCh l.reverse ?hl, List.reverse_reverse]
  case hl =>
    intro x hx
    rw [List.head?_reverse] at hx
    exact hlast x hx

/-- C7: `normalize_text` is idempotent on every string of the modelled
character set, and it identifies `"FINANCIÈRE"` with `"financiere"` —
case- and accent-insensitivity on the spec's own example. -/
theorem normalize_text_idempotent (s : Str) :
    normalize_text (normalize_text s) = normalize_text s ∧
      normalize_text "FINANCIÈRE".data = normalize_text "financiere".data := by
  constructor
  · have hstable := normalize_chars_stable s
    have hch : List.Chain' noTwoSpaces (normalize_text s) :=
      chain'_stripWs (chain'_collapseWsAux (((s.flatMap decompChar).filter
        (fun c => !combiningCh c)).map toLowerCh) false)
    have hsp : ∀ c ∈ normalize_text s, isSpaceCh c = true → c = ' ' := by
      intro c hc hs
      have hc1 : c ∈ collapseWs (((s.flatMap decompChar).filter
          (fun c => !combiningCh c)).map toLowerCh) := mem_stripWs hc
      exact collapseWsAux_spaces hc1 hs
    have hhead : ∀ h, (normalize_text s).head? = some h →
        isSpaceCh h = false := fun h hh =>
      head?_stripWs_false (collapseWs (((s.flatMap decompChar).filter
        (fun c => !combiningCh c)).map toLowerCh)) h hh
    have hlast : ∀ h, (normalize_text s).getLast? = some h →
        isSpaceCh h = false := fun h hh =>
      getLast?_stripWs_false (collapseWs (((s.flatMap decompChar).filter
        (fun c => !combiningCh c)).map toLowerCh)) h hh
    calc normalize_text (normalize_text s)
        = stripWs (collapseWs ((((normalize_text s).flatMap decompChar).filter
            (fun c => !combiningCh c)).map toLowerCh)) := rfl
      _ = stripWs (collapseWs (normalize_text s)) := by
          rw [flatMap_decomp_id hstable, filter_noncomb_id hstable,
            map_lower_id hstable]
      _ = stripWs (normalize_text s) := by
          rw [show collapseWs (normalize_text s)
              = collapseWsAux false (normalize_text s) from rfl,
            collapseWsAux_false_id _ hsp hch]
      _ = normalize_text s := stripWs_id _ hhead hlast
  · decide

end LuxNews
